import Mathlib

/-!
Verification development for the vultan schema-driven document-store mapping
layer (`vultan/types.py`, `vultan/document.py`, `vultan/new.py`).

Modelling conventions for the shallow embedding:

* Python dicts are modelled as association lists (`List (String × Value)`),
  keeping insertion order; dict-key iteration is list-order iteration.
* Python exceptions are modelled by the `PyErr` enumeration; a function that
  can raise returns `Except PyErr _`.
* Mongo/domain values are modelled by the `Value` inductive.  Python doubles
  are abstracted to an opaque integer payload (`Value.float`): no claim here
  depends on real floating-point arithmetic, only on which coercions raise.
* Value equality is modelled structurally (Python's cross-type numeric
  equalities such as `1 == True` are not modelled; no claim depends on them).
* `pymongo.binary.Binary` is modelled as the distinct kind `Value.binary`;
  where its `str`-subclass behaviour matters (iteration, coercions) it is
  treated like a string.
-/

inductive PyErr where
  | typeError
  | valueError
  | attributeError
  | assertionError
  | notImplementedError
  | invalidId
  | scalarInVectorCtx
  | invalidTransformCtx
  | unsupportedOp
  | unrecognizedAttribute
  | keyMatch
  | documentNotFound
deriving DecidableEq

/-- Mongo / domain values: null, bool, int, double (abstract payload), str,
list, tuple, dict, ObjectId, Binary, date and datetime (time of day
abstracted away; only the attributes the code reads are kept). -/
inductive Value where
  | null
  | bool (b : Bool)
  | int (n : Int)
  | float (x : Int)
  | str (s : String)
  | list (items : List Value)
  | tup (items : List Value)
  | dict (entries : List (String × Value))
  | oid (s : String)
  | binary (s : String)
  | date (y m d : Nat)
  | datetime (y m d : Nat)
/- `DecidableEq` cannot be derived for this nested inductive, so structural
equality is implemented by hand; its soundness lemma and the resulting
`DecidableEq` instance follow immediately (they are needed by later
definitions, e.g. membership tests and duplicate filtering). -/

mutual

def Value.beq : Value → Value → Bool
  | .null, .null => true
  | .bool a, .bool b => a == b
  | .int a, .int b => a == b
  | .float a, .float b => a == b
  | .str a, .str b => a == b
  | .list a, .list b => Value.beqList a b
  | .tup a, .tup b => Value.beqList a b
  | .dict a, .dict b => Value.beqPairs a b
  | .oid a, .oid b => a == b
  | .binary a, .binary b => a == b
  | .date y m d, .date y2 m2 d2 => y == y2 && m == m2 && d == d2
  | .datetime y m d, .datetime y2 m2 d2 => y == y2 && m == m2 && d == d2
  | _, _ => false

def Value.beqList : List Value → List Value → Bool
  | [], [] => true
  | a :: as2, b :: bs2 => Value.beq a b && Value.beqList as2 bs2
  | _, _ => false

def Value.beqPairs : List (String × Value) → List (String × Value) → Bool
  | [], [] => true
  | a :: as2, b :: bs2 => (a.1 == b.1 && Value.beq a.2 b.2) && Value.beqPairs as2 bs2
  | _, _ => false

end

theorem Value.beqList_iff (as2 bs2 : List Value)
    (h : ∀ a ∈ as2, ∀ b, (Value.beq a b = true ↔ a = b)) :
    (Value.beqList as2 bs2 = true ↔ as2 = bs2) := by
  induction as2 generalizing bs2 with
  | nil => cases bs2 <;> simp [Value.beqList]
  | cons a as2 ih =>
    cases bs2 with
    | nil => simp [Value.beqList]
    | cons b bs2 =>
      simp only [Value.beqList, Bool.and_eq_true, List.cons.injEq]
      constructor
      · rintro ⟨h1, h2⟩
        exact ⟨(h a (by simp) b).mp h1, (ih bs2 fun x hx => h x (by simp [hx])).mp h2⟩
      · rintro ⟨h1, h2⟩
        exact ⟨(h a (by simp) b).mpr h1, (ih bs2 fun x hx => h x (by simp [hx])).mpr h2⟩

theorem Value.beqPairs_iff (as2 bs2 : List (String × Value))
    (h : ∀ a ∈ as2, ∀ b, (Value.beq a.2 b = true ↔ a.2 = b)) :
    (Value.beqPairs as2 bs2 = true ↔ as2 = bs2) := by
  induction as2 generalizing bs2 with
  | nil => cases bs2 <;> simp [Value.beqPairs]
  | cons a as2 ih =>
    cases bs2 with
    | nil => simp [Value.beqPairs]
    | cons b bs2 =>
      simp only [Value.beqPairs, Bool.and_eq_true, List.cons.injEq, beq_iff_eq]
      constructor
      · rintro ⟨⟨h0, h1⟩, h2⟩
        exact ⟨Prod.ext h0 ((h a (by simp) b.2).mp h1),
               (ih bs2 fun x hx => h x (by simp [hx])).mp h2⟩
      · rintro ⟨h1, h2⟩
        refine ⟨⟨?_, ?_⟩, (ih bs2 fun x hx => h x (by simp [hx])).mpr h2⟩
        · rw [h1]
        · exact (h a (by simp) b.2).mpr (by rw [h1])

theorem Value.beq_iff_eq : ∀ (a b : Value), (Value.beq a b = true) ↔ a = b := by
  have main : ∀ (n : Nat) (a : Value), sizeOf a ≤ n → ∀ b,
      (Value.beq a b = true ↔ a = b) := by
    intro n
    induction n using Nat.strong_induction_on with
    | _ n ih =>
      intro a ha b
      have hElem : ∀ (items : List Value), sizeOf items < sizeOf a →
          ∀ a2 ∈ items, ∀ b2, (Value.beq a2 b2 = true ↔ a2 = b2) := by
        intro items hlt a2 hmem b2
        have h1 : sizeOf a2 < sizeOf items := List.sizeOf_lt_of_mem hmem
        exact ih (sizeOf a2) (by omega) a2 le_rfl b2
      have hPair : ∀ (es : List (String × Value)), sizeOf es < sizeOf a →
          ∀ a2 ∈ es, ∀ b2, (Value.beq a2.2 b2 = true ↔ a2.2 = b2) := by
        intro es hlt a2 hmem b2
        have h1 : sizeOf a2 < sizeOf es := List.sizeOf_lt_of_mem hmem
        have h2 : sizeOf a2.2 < sizeOf a2 := by
          cases a2; simp_arith
        exact ih (sizeOf a2.2) (by omega) a2.2 le_rfl b2
      cases a <;> cases b <;> simp [Value.beq, and_assoc]
      case list.list as2 bs2 =>
        exact Value.beqList_iff as2 bs2 (hElem as2 (by simp_arith))
      case tup.tup as2 bs2 =>
        exact Value.beqList_iff as2 bs2 (hElem as2 (by simp_arith))
      case dict.dict as2 bs2 =>
        exact Value.beqPairs_iff as2 bs2 (hPair as2 (by simp_arith))
  intro a b
  exact main (sizeOf a) a le_rfl b

instance : DecidableEq Value :=
  fun a b => decidable_of_iff (Value.beq a b = true) (Value.beq_iff_eq a b)

deriving instance DecidableEq for Except


/-- Python truthiness (`bool(value)`) on the modelled value kinds. -/
def truthy : Value → Bool
  | .null => false
  | .bool b => b
  | .int n => n != 0
  | .float x => x != 0
  | .str s => s != ""
  | .list items => !items.isEmpty
  | .tup items => !items.isEmpty
  | .dict entries => !entries.isEmpty
  | .oid _ => true
  | .binary s => s != ""
  | .date _ _ _ => true
  | .datetime _ _ _ => true

/-- Python iteration (`for item in value`): lists and tuples yield their
elements, strings (and `Binary`, a `str` subclass) their characters, dicts
their keys; every other kind raises `TypeError` (modelled as `none`). -/
def iterate : Value → Option (List Value)
  | .list items => some items
  | .tup items => some items
  | .str s => some (s.toList.map fun c => .str (String.singleton c))
  | .binary s => some (s.toList.map fun c => .str (String.singleton c))
  | .dict entries => some (entries.map fun p => .str p.1)
  | _ => none

/-- Python `unicode(value)` used by `StringField`: stringification is
abstracted to a total function (its exact text is irrelevant to the claims;
only that it never raises for stored kinds matters). -/
def pyStr : Value → String
  | .str s => s
  | .binary s => s
  | .bool b => if b then "True" else "False"
  | .int n => toString n
  | .float x => toString x
  | .null => "None"
  | .oid s => s
  | _ => ""

/-- Decimal digit-string value (plain recursion over the character list so
that the kernel can evaluate it). -/
def digitsToNat (cs : List Char) : Nat :=
  cs.foldl (fun acc c => acc * 10 + (c.toNat - 48)) 0

/-- Integer parse of a string, as accepted by Python `int(str)`: an optional
sign followed by digits (whitespace tolerance is not modelled). -/
def strToInt? (s : String) : Option Int :=
  match s.toList with
  | [] => none
  | '-' :: rest =>
    if !rest.isEmpty && rest.all Char.isDigit
    then some (-(digitsToNat rest : Int)) else none
  | cs =>
    if cs.all Char.isDigit then some ((digitsToNat cs : Nat) : Int) else none

/-- Python `int(value)`: `TypeError` for kinds without an integer coercion,
`ValueError` for malformed strings, otherwise the integer. -/
def intCoerce : Value → Except PyErr Int
  | .bool b => .ok (if b then 1 else 0)
  | .int n => .ok n
  | .float x => .ok x
  | .str s => match strToInt? s with
    | some n => .ok n
    | none => .error .valueError
  | .binary s => match strToInt? s with
    | some n => .ok n
    | none => .error .valueError
  | _ => .error .typeError

/-- Python `float(value)`; the double payload is abstract, so the string
parse accepts exactly integer-shaped strings (the claims only depend on
which kinds raise, not on parsed magnitudes). -/
def floatCoerce : Value → Except PyErr Int
  | .bool b => .ok (if b then 1 else 0)
  | .int n => .ok n
  | .float x => .ok x
  | .str s => match strToInt? s with
    | some n => .ok n
    | none => .error .valueError
  | .binary s => match strToInt? s with
    | some n => .ok n
    | none => .error .valueError
  | _ => .error .typeError

/-- Splits a character list at the first `://`, when present. -/
def schemeSplit : List Char → Option (List Char × List Char)
  | [] => none
  | ':' :: '/' :: '/' :: rest => some ([], rest)
  | c :: rest => (schemeSplit rest).map fun p => (c :: p.1, p.2)

/-- `urlparse` validity check of `UrlField`: a URL is accepted when it has a
non-empty scheme and a non-empty network location (abstracted to splitting
on `://` and on the first following `/`). -/
def urlValid (s : String) : Bool :=
  match schemeSplit s.toList with
  | some (scheme, rest) =>
    !scheme.isEmpty && !(rest.takeWhile fun c => c != '/').isEmpty
  | none => false

/-- Validity used by `pymongo.objectid.ObjectId(string)`: abstracted to the
24-character hex form; invalid strings raise (`InvalidId`). -/
def validOid (s : String) : Bool :=
  s.length == 24 && s.toList.all fun c => c.isDigit || ("abcdef".toList.contains c)

/-- `vultan.types._unique_list`: keeps the first occurrence of each element,
preserving order (the `seen`-set accumulator of the source). -/
def uniqueListAux : List Value → List Value → List Value
  | _, [] => []
  | seen, a :: rest =>
    if a ∈ seen then uniqueListAux seen rest
    else a :: uniqueListAux (a :: seen) rest

def uniqueList (l : List Value) : List Value := uniqueListAux [] l

/-- The concrete `vultan.types` field codecs.  Every constructor corresponds
to one concrete `Field` subclass; `default` payloads carry the per-instance
default value.  (`ObjectIdListField`/`ObjectIdSetField` are
`list objectId`/`set objectId`.) -/
inductive FieldTy where
  | identity
  | tuple (subs : List FieldTy)
  | list (sub : FieldTy)
  | set (sub : FieldTy)
  | objectId
  | str (default : Value)
  | int (default : Value)
  | float (default : Value)
  | enum (allowed : List Value)
  | enumSet (allowed : List Value)
  | bool (default : Value)
  | binary
  | obj (subs : List (String × FieldTy))
  | date (default : Value)
  | datetime
  | url

mutual

/-- Size measure used for the recursion of the codec transforms.  It is not
part of the source; it only drives termination.  `enumSet` is given extra
weight because `EnumSetField` delegates to a fresh `EnumField` subfield. -/
def wsize : FieldTy → Nat
  | .tuple subs => wsizeL subs + 1
  | .obj subs => wsizeP subs + 1
  | .list sub => wsize sub + 1
  | .set sub => wsize sub + 2
  | .enumSet _ => 4
  | _ => 1

def wsizeL : List FieldTy → Nat
  | [] => 0
  | s :: ss => wsize s + wsizeL ss + 1

def wsizeP : List (String × FieldTy) → Nat
  | [] => 0
  | p :: ps => wsize p.2 + wsizeP ps + 1

end

theorem wsize_pos (f : FieldTy) : 0 < wsize f := by
  cases f <;> simp [wsize]

@[simp] theorem wsize_list (sub : FieldTy) :
    wsize (FieldTy.list sub) = wsize sub + 1 := by simp [wsize]

@[simp] theorem wsize_set (sub : FieldTy) :
    wsize (FieldTy.set sub) = wsize sub + 2 := by simp [wsize]

@[simp] theorem wsize_enum (allowed : List Value) :
    wsize (FieldTy.enum allowed) = 1 := by simp [wsize]

@[simp] theorem wsize_enumSet (allowed : List Value) :
    wsize (FieldTy.enumSet allowed) = 4 := by simp [wsize]

@[simp] theorem wsize_tuple (subs : List FieldTy) :
    wsize (FieldTy.tuple subs) = wsizeL subs + 1 := by simp [wsize]

@[simp] theorem wsize_obj (subs : List (String × FieldTy)) :
    wsize (FieldTy.obj subs) = wsizeP subs + 1 := by simp [wsize]

@[simp] theorem wsizeL_cons (s : FieldTy) (ss : List FieldTy) :
    wsizeL (s :: ss) = wsize s + wsizeL ss + 1 := by simp [wsizeL]

@[simp] theorem wsizeP_cons (p : String × FieldTy) (ps : List (String × FieldTy)) :
    wsizeP (p :: ps) = wsize p.2 + wsizeP ps + 1 := by simp [wsizeP]

theorem wsize_le_wsizeL (s : FieldTy) :
    ∀ (subs : List FieldTy), s ∈ subs → wsize s ≤ wsizeL subs := by
  intro subs
  induction subs with
  | nil => intro h; cases h
  | cons a rest ih =>
    intro h
    rcases List.mem_cons.mp h with rfl | h2
    · simp only [wsizeL]; omega
    · have := ih h2
      simp only [wsizeL]; omega

theorem wsize_le_wsizeP (p : String × FieldTy) :
    ∀ (subs : List (String × FieldTy)), p ∈ subs → wsize p.2 ≤ wsizeP subs := by
  intro subs
  induction subs with
  | nil => intro h; cases h
  | cons a rest ih =>
    intro h
    rcases List.mem_cons.mp h with rfl | h2
    · simp only [wsizeP]; omega
    · have := ih h2
      simp only [wsizeP]; omega

/-- Python dict lookup `entries.get(name, None)`. -/
def dictGet (entries : List (String × Value)) (k : String) : Value :=
  ((entries.find? fun p => p.1 == k).map Prod.snd).getD .null

/-- `str.startswith('$')` (written over the character list so that the
kernel can evaluate it). -/
def startsDollar (s : String) : Bool :=
  match s.toList with
  | '$' :: _ => true
  | _ => false

/-- Left-to-right effectful map over `Except`, aborting at the first raised
exception — the evaluation order of a Python list comprehension. -/
def exMapM {A B : Type} (g : A → Except PyErr B) : List A → Except PyErr (List B)
  | [] => .ok []
  | x :: rest =>
    match g x with
    | .error e => .error e
    | .ok y => (exMapM g rest).map (y :: ·)

/-- `Field.from_mongo`'s exception handling around `do_from_mongo`: a
`NotImplementedError` is re-raised, every other exception is swallowed and
turned into `None`. -/
def fmCatch (r : Except PyErr Value) : Except PyErr Value :=
  match r with
  | .ok v => .ok v
  | .error .notImplementedError => .error .notImplementedError
  | .error _ => .ok .null

/-!
The codec transforms recurse through subfield structure in a way that is not
structural over `FieldTy` (e.g. `EnumSetField` delegates to a fresh
`EnumField`), and well-founded definitions do not reduce by `rfl`/`decide`.
They are therefore written as structural recursion over a fuel argument; the
entry points supply `2 * wsize f` fuel, which the lemmas below prove
sufficient (the exhaustion branch returns an error that the sufficiency
lemmas rule out, so no behaviour hides behind it).
-/

mutual

/-- `do_from_mongo` of each concrete codec, the inbound transform
(`vultan/types.py`).  Sub-field decoding goes through `fmCatch ∘ doFromMongoF`
= `from_mongo`, exactly as the source calls `subfield.from_mongo`. -/
def doFromMongoF : Nat → FieldTy → Value → Except PyErr Value
  | 0, _, _ => .error .notImplementedError
  | fuel + 1, f, v =>
    match f with
    | .identity => .ok v
    | .tuple subs =>
      match v with
      | .str _ => .ok .null
      | .binary _ => .ok .null
      | _ =>
        match iterate v with
        | none => .ok .null
        | some items =>
          if items.length = subs.length
          then (exMapM (fun p => fmCatch (doFromMongoF fuel p.1 p.2))
                  (subs.zip items)).map Value.tup
          else .ok .null
    | .list sub => (listFieldFromF fuel sub v).map Value.list
    | .set sub => (listFieldFromF fuel sub v).map fun l => Value.list (uniqueList l)
    | .enumSet allowed =>
      (listFieldFromF fuel (.enum allowed) v).map fun l =>
        let p := uniqueList l
        Value.list (allowed.filter fun e => p.isEmpty || decide (e ∈ p))
    | .objectId =>
      match v with
      | .oid s => .ok (.str s)
      | _ => .ok .null
    | .str d => if v = .null then .ok d else .ok (.str (pyStr v))
    | .int d =>
      match intCoerce v with
      | .ok n => .ok (.int n)
      | .error .typeError => .ok d
      | .error e => .error e
    | .float d =>
      match floatCoerce v with
      | .ok x => .ok (.float x)
      | .error .typeError => .ok d
      | .error e => .error e
    | .enum allowed => .ok (if v ∈ allowed then v else .null)
    | .bool d => if v = .null then .ok d else .ok (.bool (truthy v))
    | .binary =>
      match v with
      | .binary s => .ok (.str s)
      | _ => .ok .null
    | .obj subs =>
      (exMapM (fun p =>
         match fmCatch (doFromMongoF fuel p.2
            (dictGet (match v with | .dict es => es | _ => []) p.1)) with
         | .error err => .error err
         | .ok r => .ok (p.1, r)) subs).map Value.dict
    | .date d =>
      match v with
      | .date y m dd => .ok (.date y m dd)
      | .datetime y m dd => .ok (.date y m dd)
      | _ => .ok d
    | .datetime =>
      match v with
      | .datetime y m dd => .ok (.datetime y m dd)
      | _ => .ok .null
    | .url =>
      match v with
      | .str s => .ok (if urlValid s then .str s else .null)
      | .binary s => .ok (if urlValid s then .str s else .null)
      | _ => .error .attributeError

/-- `ListField.do_from_mongo`: iterate, decode each element with the
subfield's `from_mongo` (first uncaught exception aborts the comprehension),
drop `None` results; a non-iterable input (`TypeError`) yields `[]`. -/
def listFieldFromF : Nat → FieldTy → Value → Except PyErr (List Value)
  | 0, _, _ => .error .notImplementedError
  | fuel + 1, sub, v =>
    match iterate v with
    | none => .ok []
    | some items =>
      (exMapM (fun i => fmCatch (doFromMongoF fuel sub i)) items).map
        (List.filter fun x => x != .null)

end

/-- The inbound transform with its (sufficient) fuel supplied. -/
def doFromMongo (f : FieldTy) (v : Value) : Except PyErr Value :=
  doFromMongoF (2 * wsize f) f v

/-- `Field.from_mongo` (`vultan/types.py` lines 25-31). -/
def fromMongo (f : FieldTy) (v : Value) : Except PyErr Value :=
  fmCatch (doFromMongo f v)

/-- Transform contexts of `Field.to_mongo` / `ListField.to_mongo`:
`AUTO`, `NONE`, `MANY`, `ATOM`, `LIST`. -/
inductive Ctx where
  | auto
  | noneC
  | many
  | atom
  | listC
deriving DecidableEq

/-- `ObjectField.do_to_mongo`'s per-subfield lookup: mapping-style `get` on a
dict, `getattr(value, name, None)` (modelled as null) otherwise. -/
def objLookup (v : Value) (k : String) : Value :=
  match v with
  | .dict es => dictGet es k
  | _ => .null

mutual

/-- `Field.to_mongo` dispatch on the transform context, including the
`ListField.to_mongo` override used by `ListField`/`SetField`/`EnumSetField`
(`vultan/types.py` lines 43-50 and 107-116). -/
def toMongoF : Nat → FieldTy → Value → Ctx → Except PyErr Value
  | 0, _, _, _ => .error .notImplementedError
  | fuel + 1, f, v, ctx =>
    match f with
    | .list sub =>
      match ctx with
      | .listC => doToMongoF fuel (.list sub) v
      | .many => doToMongoF fuel (.list sub) v
      | .atom => toMongoF fuel sub v .auto
      | _ =>
        match v with
        | .list items => doToMongoF fuel (.list sub) (.list items)
        | _ => toMongoF fuel sub v .auto
    | .set sub =>
      match ctx with
      | .listC => doToMongoF fuel (.set sub) v
      | .many => doToMongoF fuel (.set sub) v
      | .atom => toMongoF fuel sub v .auto
      | _ =>
        match v with
        | .list items => doToMongoF fuel (.set sub) (.list items)
        | _ => toMongoF fuel sub v .auto
    | .enumSet allowed =>
      match ctx with
      | .listC => doToMongoF fuel (.enumSet allowed) v
      | .many => doToMongoF fuel (.enumSet allowed) v
      | .atom => toMongoF fuel (.enum allowed) v .auto
      | _ =>
        match v with
        | .list items => doToMongoF fuel (.enumSet allowed) (.list items)
        | _ => toMongoF fuel (.enum allowed) v .auto
    | _ =>
      match ctx with
      | .auto => doToMongoF fuel f v
      | .noneC => doToMongoF fuel f v
      | .many =>
        match iterate v with
        | none => .error .typeError
        | some items => (exMapM (doToMongoF fuel f) items).map Value.list
      | _ => .error .scalarInVectorCtx

/-- `do_to_mongo` of each concrete codec, the (stricter) outbound transform
(`vultan/types.py`).  Exceptions raised here are never swallowed. -/
def doToMongoF : Nat → FieldTy → Value → Except PyErr Value
  | 0, _, _ => .error .notImplementedError
  | fuel + 1, f, v =>
    match f with
    | .identity => .ok v
    | .tuple subs =>
      match v with
      | .tup items =>
        if items.length = subs.length
        then (exMapM (fun p => toMongoF fuel p.1 p.2 .auto) (subs.zip items)).map
               Value.list
        else .error .assertionError
      | _ => .error .assertionError
    | .list sub => (listFieldToF fuel sub v).map Value.list
    | .set sub => (setFieldToF fuel sub v).map Value.list
    | .enumSet allowed =>
      (setFieldToF fuel (.enum allowed) v).map fun l =>
        if l.length = allowed.length then Value.list [] else Value.list l
    | .objectId =>
      match v with
      | .oid s => .ok (.oid s)
      | .str s => if validOid s then .ok (.oid s) else .error .invalidId
      | .binary s => if validOid s then .ok (.oid s) else .error .invalidId
      | .null => .ok .null
      | _ => .error .assertionError
    | .str _ => if v = .null then .ok .null else .ok (.str (pyStr v))
    | .int _ => if v = .null then .ok .null else (intCoerce v).map Value.int
    | .float _ => if v = .null then .ok .null else (floatCoerce v).map Value.float
    | .enum allowed => .ok (if v ∈ allowed then v else .null)
    | .bool d => if v = .null then .ok d else .ok (.bool (truthy v))
    | .binary =>
      match v with
      | .str s => .ok (.binary s)
      | .binary s => .ok (.binary s)
      | _ => .error .typeError
    | .obj subs =>
      (exMapM (fun p =>
         (toMongoF fuel p.2 (objLookup v p.1) .auto).map fun r => (p.1, r))
        subs).map Value.dict
    | .date _ =>
      match v with
      | .date y m dd => .ok (.datetime y m dd)
      | .datetime y m dd => .ok (.datetime y m dd)
      | _ => .error .attributeError
    | .datetime =>
      if truthy v = false then .ok .null
      else
        match v with
        | .datetime y m dd => .ok (.datetime y m dd)
        | _ => .error .assertionError
    | .url =>
      if truthy v = false then .ok .null
      else
        match v with
        | .str sl => if urlValid sl then .ok (.str sl) else .error .valueError
        | .binary sl => if urlValid sl then .ok (.str sl) else .error .valueError
        | _ => .error .attributeError

/-- `ListField.do_to_mongo`: falsy input yields `[]`; otherwise each element
is encoded by the subfield's `to_mongo` (default `AUTO` context) and `None`
results are dropped.  Exceptions propagate. -/
def listFieldToF : Nat → FieldTy → Value → Except PyErr (List Value)
  | 0, _, _ => .error .notImplementedError
  | fuel + 1, sub, v =>
    if truthy v = false then .ok []
    else
      match iterate v with
      | none => .error .typeError
      | some items =>
        (exMapM (fun i => toMongoF fuel sub i .auto) items).map
          (List.filter fun x => x != .null)

/-- `SetField.do_to_mongo`: falsy input yields `[]`; otherwise delegates to
`ListField.do_to_mongo` on `_unique_list(value)`. -/
def setFieldToF : Nat → FieldTy → Value → Except PyErr (List Value)
  | 0, _, _ => .error .notImplementedError
  | fuel + 1, sub, v =>
    if truthy v = false then .ok []
    else
      match iterate v with
      | none => .error .typeError
      | some items => listFieldToF fuel sub (.list (uniqueList items))

end

/-- `Field.to_mongo` with its (sufficient) fuel supplied. -/
def toMongo (f : FieldTy) (v : Value) (ctx : Ctx) : Except PyErr Value :=
  toMongoF (3 * wsize f + 1) f v ctx

/-- `do_to_mongo` with its (sufficient) fuel supplied. -/
def doToMongo (f : FieldTy) (v : Value) : Except PyErr Value :=
  doToMongoF (3 * wsize f) f v

/-- A declared attribute's codec together with its optional store-side alias
(`Field.dbname`). -/
structure Fld where
  ty : FieldTy
  db : Option String

/-- `Field.get_dbname`. -/
def getDbname (f : Fld) (name : String) : String := f.db.getD name

/-- `_Attributes`: ordered mapping from logical field name to its codec. -/
abbrev Attrs := List (String × Fld)

/-- `_Attributes.__init__`: injects the identifier attribute
(`ObjectIdField().dbname('_id')`) when no `id` attribute was declared. -/
def attrsInit (dct : Attrs) : Attrs :=
  if dct.any fun p => p.1 == "id" then dct
  else dct ++ [("id", ⟨.objectId, some "_id"⟩)]

/-- `_Attributes.get_fieldtype`: plain lookup, `None` when absent. -/
def getFieldtypeA (a : Attrs) (name : String) : Option Fld :=
  (List.find? (fun p => p.1 == name) a).map Prod.snd

/-- `Storage._get_fieldtype` (`vultan/new.py` lines 175-181, identical to
`ReadOnlyDocument._get_fieldtype` in `vultan/document.py`): undeclared names
raise `UnrecognizedAttributeError` unless they contain a `.`, in which case a
transparent `IdentityField` is used. -/
def getFieldtype (a : Attrs) (name : String) : Except PyErr Fld :=
  match getFieldtypeA a name with
  | some f => .ok f
  | none =>
    if name.toList.contains '.' then .ok ⟨.identity, none⟩
    else .error .unrecognizedAttribute

/-- `Storage._to_mongo` (`vultan/new.py` lines 166-173): translate a document
one field at a time; each value is encoded by its field's `to_mongo` under
the given context unless `dotransform` is off, and keyed by its store
alias. -/
def toMongoDoc (a : Attrs) (ctx : Ctx) (dotransform : Bool) :
    List (String × Value) → Except PyErr (List (String × Value))
  | [] => .ok []
  | (k, v) :: rest =>
    match getFieldtype a k with
    | .error e => .error e
    | .ok fld =>
      match (if dotransform then toMongo fld.ty v ctx else .ok v) with
      | .error e => .error e
      | .ok w => (toMongoDoc a ctx dotransform rest).map ((getDbname fld k, w) :: ·)

/-- The per-value helper of `Storage._query_to_mongo` (`vultan/new.py` lines
126-138): a dict value whose keys are all operators is translated
operator-wise (`$gt`/`$lt`/`$gte`/`$lte`/`$ne` under `AUTO`, `$in`/`$nin`
under `MANY`, anything else `UnsupportedMongodbOpError`); any other value is
encoded under the `NONE` context. -/
def queryValueToMongo (fld : Fld) (v : Value) : Except PyErr Value :=
  match v with
  | .dict entries =>
    if entries.all fun p => startsDollar p.1 then
      (exMapM (fun p =>
        if p.1 == "$gt" || p.1 == "$lt" || p.1 == "$gte" || p.1 == "$lte"
            || p.1 == "$ne" then
          (toMongo fld.ty p.2 .auto).map fun w => (p.1, w)
        else if p.1 == "$in" || p.1 == "$nin" then
          (toMongo fld.ty p.2 .many).map fun w => (p.1, w)
        else .error .unsupportedOp) entries).map Value.dict
    else toMongo fld.ty (.dict entries) .noneC
  | _ => toMongo fld.ty v .noneC

/-- `Storage._query_to_mongo` (`vultan/new.py` lines 125-144). -/
def queryToMongo (a : Attrs) :
    List (String × Value) → Except PyErr (List (String × Value))
  | [] => .ok []
  | (k, v) :: rest =>
    match getFieldtype a k with
    | .error e => .error e
    | .ok fld =>
      match queryValueToMongo fld v with
      | .error e => .error e
      | .ok w => (queryToMongo a rest).map ((getDbname fld k, w) :: ·)

/-- Operator-key branch of `Storage._update_to_mongo`: the operator's value
is itself a document handed to `_to_mongo` (whose dict iteration raises
`AttributeError` on a non-dict). -/
def updOp (a : Attrs) (ctx : Ctx) (dt : Bool) (k : String) (v : Value) :
    Except PyErr (String × Value) :=
  match v with
  | .dict es => (toMongoDoc a ctx dt es).map fun d => (k, Value.dict d)
  | _ => .error .attributeError

/-- One entry of `Storage._update_to_mongo` (`vultan/new.py` lines 146-164):
operator keys dispatch their sub-document to `_to_mongo` under the matching
context (`$set`/`$unset`: `AUTO`; `$push`/`$pull`: `ATOM`;
`$pushAll`/`$pullAll`: `LIST`; `$inc`/`$pop`: untransformed), unknown
operators raise; a bare field name is encoded by its own field's `to_mongo`
under `AUTO` and keyed by its store alias. -/
def updEntry (a : Attrs) (k : String) (v : Value) :
    Except PyErr (String × Value) :=
  if startsDollar k then
    if k == "$set" || k == "$unset" then updOp a .auto true k v
    else if k == "$push" || k == "$pull" then updOp a .atom true k v
    else if k == "$pushAll" || k == "$pullAll" then updOp a .listC true k v
    else if k == "$inc" || k == "$pop" then updOp a .auto false k v
    else .error .unsupportedOp
  else
    match getFieldtype a k with
    | .error e => .error e
    | .ok fld =>
      match toMongo fld.ty v .auto with
      | .error e => .error e
      | .ok w => .ok (getDbname fld k, w)

/-- `Storage._update_to_mongo` over the whole update document. -/
def updateToMongo (a : Attrs) :
    List (String × Value) → Except PyErr (List (String × Value))
  | [] => .ok []
  | (k, v) :: rest =>
    match updEntry a k v with
    | .error e => .error e
    | .ok p => (updateToMongo a rest).map (p :: ·)

/-- `Index`/`Key` (`vultan/document.py` lines 18-52): an ordered list of
(field, direction) pairs plus the uniqueness flag distinguishing `Key`
(`uniq = true`) from plain `Index` (`uniq = false`).  `Index.__init__`
asserts a non-empty field list; direction defaults to `pymongo.ASCENDING`
(= 1).  Structural equality (`Index.__eq__`) compares only `index`. -/
structure Idx where
  index : List (String × Int)
  uniq : Bool
deriving DecidableEq

/-- `Index.names`. -/
def Idx.names (k : Idx) : List String := k.index.map Prod.fst

/-- `Index.head`: the first field name (total here; the source guarantees a
non-empty index via the constructor assert). -/
def Idx.head (k : Idx) : String := k.names.headD ""

/-- `Key.match` / `Index.match` as a success predicate (`true` = returns the
query, `false` = an assert fires): a `Key` under `unique=True` requires every
field name in the query's top-level key set, under `unique=False` only its
head; an `Index` never enforces anything. -/
def Idx.matchB (k : Idx) (q : List String) (unique : Bool) : Bool :=
  if k.uniq then
    if unique then k.names.all fun n => q.contains n
    else q.contains k.head
  else true

/-- `_KeySet.add` (`vultan/document.py` lines 61-65): appends unless a
structurally-equal entry exists.  (The source stores keys grouped by head in
a dict and tests membership within `self._keys[key.head]`; equal `index`
lists force equal heads, so a flat list with a global test is the same
set.) -/
def ksAdd (ks : List Idx) (k : Idx) : List Idx :=
  if ks.any fun k2 => k2.index == k.index then ks else ks ++ [k]

/-- `_KeySet.update`. -/
def ksUpdate (ks : List Idx) (newKeys : List Idx) : List Idx :=
  newKeys.foldl ksAdd ks

/-- The identifier key `Key('id')` added by `_KeySet.__init__`. -/
def idKey : Idx := ⟨[("id", 1)], true⟩

/-- `_KeySet.__init__(*args)`: add the declared keys in order, then
`Key('id')`. -/
def mkKeySet (declared : List Idx) : List Idx :=
  ksAdd (ksUpdate [] declared) idKey

/-- The candidate keys grouped under head `h` (`self._keys.get(head, [])`). -/
def ksGroup (ks : List Idx) (h : String) : List Idx :=
  ks.filter fun k => k.head == h

/-- `_KeySet.match` (`vultan/document.py` lines 80-90) as a success
predicate: for each top-level query field, try every key whose head is that
field, ignoring failures; `false` means every candidate failed and
`KeyMatchError` is raised. -/
def ksMatch (ks : List Idx) (q : List String) (unique : Bool) : Bool :=
  q.any fun h => (ksGroup ks h).any fun k => k.matchB q unique

/-- The store's report for an update call: `updatedExisting` and `n` of the
result document. -/
structure UpdRes where
  updatedExisting : Bool
  n : Nat

/-- The top-level field names of a query/document dict. -/
def queryKeys (q : List (String × Value)) : List String := q.map Prod.fst

/-- The pre-store key checks of `Storage._insert` (`vultan/new.py` lines
74-81): `key.match(doc, unique=True)` for every key whose head is not `id`;
a failing `Key.match` assert raises `AssertionError` (nothing converts it to
`KeyMatchError` on this path). -/
def insertChecks (S : List Idx) (docKeys : List String) : Except PyErr Unit :=
  if S.all fun k => k.head == "id" || k.matchB docKeys true then .ok ()
  else .error .assertionError

/-- `Storage._insert`: key checks, then document translation, then the store
insert (modelled by appending to the collection list); returns the
store-assigned id (a parameter here) and the new store contents. -/
def insertOp (S : List Idx) (a : Attrs) (store : List (List (String × Value)))
    (doc : List (String × Value)) (newOid : String) :
    Except PyErr String × List (List (String × Value)) :=
  match insertChecks S (queryKeys doc) with
  | .error e => (.error e, store)
  | .ok _ =>
    match toMongoDoc a .auto true doc with
    | .error e => (.error e, store)
    | .ok d => (.ok newOid, store ++ [d])

/-- `Storage._update` (`vultan/new.py` lines 83-91): validate the query with
`unique = not multi`, translate query and update document, issue the store
update (its report is a parameter), raise `DocumentNotFoundError` when a
single-document update touched nothing, else return `n`. -/
def updateOp (S : List Idx) (a : Attrs) (q doc : List (String × Value))
    (multi : Bool) (res : UpdRes) : Except PyErr Nat :=
  if ksMatch S (queryKeys q) (!multi) then
    match queryToMongo a q with
    | .error e => .error e
    | .ok _ =>
      match updateToMongo a doc with
      | .error e => .error e
      | .ok _ =>
        if !multi && !res.updatedExisting then .error .documentNotFound
        else .ok res.n
  else .error .keyMatch

/-- `Storage._upsert` (`vultan/new.py` lines 93-100): always unique-validated;
returns the store's `updatedExisting`. -/
def upsertOp (S : List Idx) (a : Attrs) (q doc : List (String × Value))
    (res : UpdRes) : Except PyErr Bool :=
  if ksMatch S (queryKeys q) true then
    match queryToMongo a q with
    | .error e => .error e
    | .ok _ =>
      match updateToMongo a doc with
      | .error e => .error e
      | .ok _ => .ok res.updatedExisting
  else .error .keyMatch

/-- `Storage._remove` (`vultan/new.py` lines 102-106): validated with
`unique=False`; returns the store's removed count (a parameter). -/
def removeOp (S : List Idx) (a : Attrs) (q : List (String × Value))
    (removed : Nat) : Except PyErr Nat :=
  if ksMatch S (queryKeys q) false then
    match queryToMongo a q with
    | .error e => .error e
    | .ok _ => .ok removed
  else .error .keyMatch

/-- `Storage._find_one` (`vultan/new.py` lines 56-60): unique-validated, then
translated; the store's answer (a parameter) is passed through. -/
def findOneOp (S : List Idx) (a : Attrs) (q : List (String × Value))
    (found : Option (List (String × Value))) :
    Except PyErr (Option (List (String × Value))) :=
  if ksMatch S (queryKeys q) true then
    match queryToMongo a q with
    | .error e => .error e
    | .ok _ => .ok found
  else .error .keyMatch

/-- `Storage._find` via `_find_as_cursor` (`vultan/new.py` lines 112-116):
`KeySet.match(query)` (with `unique=False`) only when `require_index`;
then translation; the store's documents are a parameter. -/
def findOp (S : List Idx) (a : Attrs) (q : List (String × Value))
    (requireIndex : Bool) (docs : List (List (String × Value))) :
    Except PyErr (List (List (String × Value))) :=
  if requireIndex && !ksMatch S (queryKeys q) false then .error .keyMatch
  else
    match queryToMongo a q with
    | .error e => .error e
    | .ok _ => .ok docs

/-!
## Helper lemmas
-/

theorem exMapM_ok_of {A B : Type} (g : A → Except PyErr B) :
    ∀ l : List A, (∀ x ∈ l, ∃ y, g x = .ok y) → ∃ ys, exMapM g l = .ok ys := by
  intro l
  induction l with
  | nil => intro _; exact ⟨[], rfl⟩
  | cons x rest ih =>
    intro h
    obtain ⟨y, hy⟩ := h x (by simp)
    obtain ⟨ys, hys⟩ := ih fun a ha => h a (by simp [ha])
    exact ⟨y :: ys, by simp [exMapM, hy, hys, Except.map]⟩

theorem exMapM_id_of (g : Value → Except PyErr Value) :
    ∀ l : List Value, (∀ x ∈ l, g x = .ok x) → exMapM g l = .ok l := by
  intro l
  induction l with
  | nil => intro _; rfl
  | cons x rest ih =>
    intro h
    have hx := h x (by simp)
    have hr := ih fun a ha => h a (by simp [ha])
    simp [exMapM, hx, hr, Except.map]

theorem mem_uniqueListAux :
    ∀ (l seen : List Value) (a : Value),
      a ∈ uniqueListAux seen l ↔ a ∈ l ∧ a ∉ seen := by
  intro l
  induction l with
  | nil => intro seen a; simp [uniqueListAux]
  | cons b rest ih =>
    intro seen a
    by_cases hb : b ∈ seen
    · simp only [uniqueListAux, if_pos hb, ih, List.mem_cons]
      constructor
      · rintro ⟨h1, h2⟩; exact ⟨Or.inr h1, h2⟩
      · rintro ⟨h1 | h1, h2⟩
        · exact absurd (h1 ▸ hb) h2
        · exact ⟨h1, h2⟩
    · simp only [uniqueListAux, if_neg hb, List.mem_cons, ih]
      constructor
      · rintro (rfl | ⟨h1, h2⟩)
        · exact ⟨Or.inl rfl, hb⟩
        · exact ⟨Or.inr h1, fun hc => h2 (Or.inr hc)⟩
      · rintro ⟨rfl | h1, h2⟩
        · exact Or.inl rfl
        · by_cases hab : a = b
          · exact Or.inl hab
          · exact Or.inr ⟨h1, by simp [hab, h2]⟩

theorem mem_uniqueList (l : List Value) (a : Value) :
    a ∈ uniqueList l ↔ a ∈ l := by
  simp [uniqueList, mem_uniqueListAux]

theorem nodup_uniqueListAux :
    ∀ (l seen : List Value), (uniqueListAux seen l).Nodup := by
  intro l
  induction l with
  | nil => intro seen; simp [uniqueListAux]
  | cons b rest ih =>
    intro seen
    by_cases hb : b ∈ seen
    · simpa [uniqueListAux, if_pos hb] using ih seen
    · simp only [uniqueListAux, if_neg hb]
      refine List.nodup_cons.mpr ⟨?_, ih (b :: seen)⟩
      intro hc
      exact ((mem_uniqueListAux rest (b :: seen) b).mp hc).2 (by simp)

theorem nodup_uniqueList (l : List Value) : (uniqueList l).Nodup :=
  nodup_uniqueListAux l []

theorem uniqueListAux_eq_self :
    ∀ (l seen : List Value), l.Nodup → (∀ a ∈ l, a ∉ seen) →
      uniqueListAux seen l = l := by
  intro l
  induction l with
  | nil => intro seen _ _; rfl
  | cons b rest ih =>
    intro seen hnd hdis
    have hb : b ∉ seen := hdis b (by simp)
    simp only [uniqueListAux, if_neg hb]
    have hnd2 := List.nodup_cons.mp hnd
    refine congrArg (b :: ·) (ih (b :: seen) hnd2.2 ?_)
    intro a ha
    simp only [List.mem_cons]
    rintro (rfl | hc)
    · exact hnd2.1 ha
    · exact hdis a (by simp [ha]) hc

theorem uniqueList_eq_self {l : List Value} (h : l.Nodup) : uniqueList l = l :=
  uniqueListAux_eq_self l [] h (by simp)

theorem uniqueList_idem (l : List Value) :
    uniqueList (uniqueList l) = uniqueList l :=
  uniqueList_eq_self (nodup_uniqueList l)

theorem uniqueList_ne_nil {l : List Value} (h : l ≠ []) : uniqueList l ≠ [] := by
  cases l with
  | nil => exact absurd rfl h
  | cons b rest => simp [uniqueList, uniqueListAux]

theorem head_mem_names {k : Idx} (h : k.index ≠ []) : k.head ∈ k.names := by
  cases hidx : k.index with
  | nil => exact absurd hidx h
  | cons p rest => simp [Idx.head, Idx.names, hidx]

theorem mem_ksAdd {ks : List Idx} {k k2 : Idx} (h : k2 ∈ ksAdd ks k) :
    k2 ∈ ks ∨ k2 = k := by
  unfold ksAdd at h
  split at h
  · exact Or.inl h
  · rcases List.mem_append.mp h with h1 | h1
    · exact Or.inl h1
    · exact Or.inr (List.mem_singleton.mp h1)

theorem ksAdd_subset (ks : List Idx) (k : Idx) : ks ⊆ ksAdd ks k := by
  intro k2 h2
  unfold ksAdd
  split
  · exact h2
  · exact List.mem_append_left _ h2

theorem mem_ksUpdate :
    ∀ (ns ks : List Idx) (k2 : Idx), k2 ∈ ksUpdate ks ns → k2 ∈ ks ∨ k2 ∈ ns := by
  intro ns
  induction ns with
  | nil => intro ks k2 h; exact Or.inl h
  | cons n rest ih =>
    intro ks k2 h
    rcases ih (ksAdd ks n) k2 h with h1 | h1
    · rcases mem_ksAdd h1 with h2 | rfl
      · exact Or.inl h2
      · exact Or.inr (by simp)
    · exact Or.inr (by simp [h1])

theorem ksUpdate_subset (ks ns : List Idx) : ks ⊆ ksUpdate ks ns := by
  induction ns generalizing ks with
  | nil => exact fun _ h => h
  | cons n rest ih =>
    intro k2 h2
    exact ih (ksAdd ks n) (ksAdd_subset ks n h2)

theorem mem_mkKeySet {d : List Idx} {k2 : Idx} (h : k2 ∈ mkKeySet d) :
    k2 ∈ d ∨ k2 = idKey := by
  unfold mkKeySet at h
  rcases mem_ksAdd h with h1 | rfl
  · rcases mem_ksUpdate d [] k2 h1 with h2 | h2
    · cases h2
    · exact Or.inl h2
  · exact Or.inr rfl

/-!
## Claim theorems
-/

/-- C10: `KeySet.match` applied to an empty query (no top-level fields)
raises `KeyMatchError` regardless of the `unique` flag (the loop over query
keys finds no candidate); consequently every index-validated operation —
`find_one`, `find` with index enforcement, `remove`, `update` (either
`multi`), `upsert` — rejects the empty query with `KeyMatchError`, so no
validated operation can address all documents at once. -/
theorem C10_empty_query_rejected (S : List Idx) (a : Attrs) (u multi : Bool)
    (doc : List (String × Value)) (res : UpdRes) (n : Nat)
    (found : Option (List (String × Value)))
    (docs : List (List (String × Value))) :
    ksMatch S [] u = false
    ∧ findOneOp S a [] found = .error .keyMatch
    ∧ findOp S a [] true docs = .error .keyMatch
    ∧ removeOp S a [] n = .error .keyMatch
    ∧ updateOp S a [] doc multi res = .error .keyMatch
    ∧ upsertOp S a [] doc res = .error .keyMatch := by
  refine ⟨rfl, rfl, rfl, rfl, ?_, rfl⟩
  cases multi <;> rfl

/-- C4: `update(query, doc, multi=false)` validates the query with unique
coverage (`KeySet.match` with `unique=true`); when the store then reports
that no existing document was updated it raises `DocumentNotFoundError` even
though the store call itself succeeded; with `multi=true` no such error is
raised and the store's matched count is returned. -/
theorem C4_update_notfound (S : List Idx) (a : Attrs)
    (q doc : List (String × Value)) (res : UpdRes) :
    (ksMatch S (queryKeys q) true = false →
      updateOp S a q doc false res = .error .keyMatch)
    ∧ (∀ qm um, ksMatch S (queryKeys q) true = true →
        queryToMongo a q = .ok qm → updateToMongo a doc = .ok um →
        res.updatedExisting = false →
        updateOp S a q doc false res = .error .documentNotFound)
    ∧ (∀ qm um, ksMatch S (queryKeys q) false = true →
        queryToMongo a q = .ok qm → updateToMongo a doc = .ok um →
        updateOp S a q doc true res = .ok res.n) := by
  refine ⟨?_, ?_, ?_⟩
  · intro h; simp [updateOp, h]
  · intro qm um h1 h2 h3 h4; simp [updateOp, h1, h2, h3, h4]
  · intro qm um h1 h2 h3; simp [updateOp, h1, h2, h3]

/-- C4 witness: one declared key set (just the identifier key), a query on
`id`, a store report with `updatedExisting = false` and `n = 3`. -/
theorem C4_update_notfound_witness :
    updateOp (mkKeySet []) (attrsInit [])
        [("id", .oid "0123456789ab0123456789ab")] [] false ⟨false, 3⟩
      = .error .documentNotFound
    ∧ updateOp (mkKeySet []) (attrsInit [])
        [("id", .oid "0123456789ab0123456789ab")] [] true ⟨false, 3⟩
      = .ok 3 := by
  constructor
  · exact (C4_update_notfound (mkKeySet []) (attrsInit [])
      [("id", .oid "0123456789ab0123456789ab")] [] ⟨false, 3⟩).2.1
      [("_id", .oid "0123456789ab0123456789ab")] []
      (by decide) (by rfl) (by rfl) (by rfl)
  · exact (C4_update_notfound (mkKeySet []) (attrsInit [])
      [("id", .oid "0123456789ab0123456789ab")] [] ⟨false, 3⟩).2.2
      [("_id", .oid "0123456789ab0123456789ab")] []
      (by decide) (by rfl) (by rfl)

/-- C7: in the update-translation step, a top-level field name that does not
begin with the operator prefix `$` is treated as an implicit set of that
field: its value is encoded by the field's outbound transform under the
default scalar (`AUTO`) context and entered into the translated update
document under the field's store alias. -/
theorem C7_bare_update_field (a : Attrs) (doc : List (String × Value))
    (k : String) (v : Value) (ans : List (String × Value))
    (hmem : (k, v) ∈ doc) (hop : startsDollar k = false)
    (hok : updateToMongo a doc = .ok ans) :
    ∃ fld w, getFieldtype a k = .ok fld ∧ toMongo fld.ty v .auto = .ok w
      ∧ (getDbname fld k, w) ∈ ans := by
  induction doc generalizing ans with
  | nil => cases hmem
  | cons p rest ih =>
    obtain ⟨k1, v1⟩ := p
    rw [updateToMongo] at hok
    cases hE : updEntry a k1 v1 with
    | error e => rw [hE] at hok; cases hok
    | ok pr =>
      rw [hE] at hok
      cases hR : updateToMongo a rest with
      | error e => rw [hR] at hok; cases hok
      | ok tail =>
        rw [hR] at hok
        simp only [Except.map, Except.ok.injEq] at hok
        rcases List.mem_cons.mp hmem with heq | hmem2
        · injection heq with hk hv
          subst hk; subst hv
          simp only [updEntry, hop, Bool.false_eq_true, if_false] at hE
          cases hF : getFieldtype a k with
          | error e => rw [hF] at hE; dsimp only at hE; cases hE
          | ok fld =>
            rw [hF] at hE; dsimp only at hE
            cases hT : toMongo fld.ty v .auto with
            | error e => rw [hT] at hE; dsimp only at hE; cases hE
            | ok w =>
              rw [hT] at hE; dsimp only at hE
              refine ⟨fld, w, rfl, hT, ?_⟩
              cases hE
              rw [← hok]
              exact List.mem_cons_self _ _
        · obtain ⟨fld, w, h1, h2, h3⟩ := ih tail hmem2 hR
          exact ⟨fld, w, h1, h2, by rw [← hok]; exact List.mem_cons_of_mem _ h3⟩

/-- C7 witness: a schema with one integer attribute aliased to `n`, and the
update document `{x: 5}`. -/
theorem C7_bare_update_field_witness :
    ∃ fld w, getFieldtype [("x", ⟨.int (.int 0), some "n"⟩)] "x" = .ok fld
      ∧ toMongo fld.ty (.int 5) .auto = .ok w
      ∧ (getDbname fld "x", w) ∈ [("n", Value.int 5)] :=
  C7_bare_update_field [("x", ⟨.int (.int 0), some "n"⟩)] [("x", .int 5)]
    "x" (.int 5) [("n", .int 5)] (by simp) (by rfl) (by rfl)

/-- C8: a top-level field name that is not declared in the attribute schema
and contains no path separator raises `UnrecognizedAttributeError` — shown
for the resolution itself and propagating through document, query and
(bare-field) update translation; an undeclared name containing `.` resolves
to the transparent `IdentityField` passthrough, under which document, update
(bare field) and query (plain value) translation of that field succeeds and
passes the value through unchanged. -/
theorem C8_field_name_resolution (a : Attrs) (name : String) (v : Value)
    (hnone : getFieldtypeA a name = none) :
    (name.toList.contains '.' = false →
        getFieldtype a name = .error .unrecognizedAttribute
        ∧ toMongoDoc a .auto true [(name, v)] = .error .unrecognizedAttribute
        ∧ queryToMongo a [(name, v)] = .error .unrecognizedAttribute
        ∧ (startsDollar name = false →
            updateToMongo a [(name, v)] = .error .unrecognizedAttribute))
    ∧ (name.toList.contains '.' = true →
        getFieldtype a name = .ok ⟨.identity, none⟩
        ∧ toMongoDoc a .auto true [(name, v)] = .ok [(name, v)]
        ∧ (startsDollar name = false →
            updateToMongo a [(name, v)] = .ok [(name, v)])
        ∧ ((∀ es, v ≠ .dict es) →
            queryToMongo a [(name, v)] = .ok [(name, v)])) := by
  constructor
  · intro hdot
    have hdot2 : '.' ∉ name.data := by simpa [String.toList] using hdot
    have hF : getFieldtype a name = .error .unrecognizedAttribute := by
      simp [getFieldtype, hnone, hdot2]
    refine ⟨hF, by simp [toMongoDoc, hF], by simp [queryToMongo, hF], ?_⟩
    intro hop
    simp [updateToMongo, updEntry, hop, hF]
  · intro hdot
    have hdot2 : '.' ∈ name.data := by simpa [String.toList] using hdot
    have hF : getFieldtype a name = .ok ⟨.identity, none⟩ := by
      simp [getFieldtype, hnone, hdot2]
    have hT : toMongo FieldTy.identity v .auto = .ok v := rfl
    refine ⟨hF, ?_, ?_, ?_⟩
    · simp [toMongoDoc, hF, hT, getDbname, Except.map]
    · intro hop
      simp [updateToMongo, updEntry, hop, hF, hT, getDbname, Except.map]
    · intro hnd
      have hq : queryValueToMongo ⟨.identity, none⟩ v = .ok v := by
        cases v <;> first | rfl | exact absurd rfl (hnd _)
      simp [queryToMongo, hF, hq, getDbname, Except.map]

/-- C8 witness: the undeclared names `x` (raises) and `a.b` (passthrough) on
an empty schema. -/
theorem C8_field_name_resolution_witness :
    (getFieldtype [] "x" = .error .unrecognizedAttribute
      ∧ toMongoDoc [] .auto true [("x", Value.int 1)]
          = .error .unrecognizedAttribute
      ∧ queryToMongo [] [("x", Value.int 1)] = .error .unrecognizedAttribute
      ∧ updateToMongo [] [("x", Value.int 1)] = .error .unrecognizedAttribute)
    ∧ (getFieldtype [] "a.b" = .ok ⟨.identity, none⟩
      ∧ toMongoDoc [] .auto true [("a.b", Value.int 1)]
          = .ok [("a.b", Value.int 1)]
      ∧ updateToMongo [] [("a.b", Value.int 1)] = .ok [("a.b", Value.int 1)]
      ∧ queryToMongo [] [("a.b", Value.int 1)] = .ok [("a.b", Value.int 1)]) := by
  constructor
  · have h := (C8_field_name_resolution [] "x" (.int 1) (by rfl)).1 (by decide)
    exact ⟨h.1, h.2.1, h.2.2.1, h.2.2.2 (by decide)⟩
  · have h := (C8_field_name_resolution [] "a.b" (.int 1) (by rfl)).2 (by decide)
    exact ⟨h.1, h.2.1, h.2.2.1 (by decide), h.2.2.2 (by intro es h2; cases h2)⟩

theorem ksMatch_all_unique_iff (S : List Idx) (q : List String)
    (hU : ∀ k ∈ S, k.uniq = true) (hNE : ∀ k ∈ S, k.index ≠ []) :
    (ksMatch S q true = true ↔ ∃ k ∈ S, ∀ n ∈ k.names, n ∈ q)
    ∧ (ksMatch S q false = true ↔ ∃ k ∈ S, k.head ∈ q) := by
  constructor
  · constructor
    · intro h
      simp only [ksMatch, List.any_eq_true] at h
      obtain ⟨h0, hq, k, hkg, hm⟩ := h
      have hk : k ∈ S := (List.mem_filter.mp hkg).1
      refine ⟨k, hk, ?_⟩
      intro n hn
      simp only [Idx.matchB, hU k hk, if_true, List.all_eq_true] at hm
      simpa using hm n hn
    · rintro ⟨k, hk, hall⟩
      have hne := hNE k hk
      have hhead : k.head ∈ q := hall k.head (head_mem_names hne)
      simp only [ksMatch, List.any_eq_true]
      refine ⟨k.head, hhead, k, ?_, ?_⟩
      · exact List.mem_filter.mpr ⟨hk, by simp⟩
      · simp only [Idx.matchB, hU k hk, if_true, List.all_eq_true]
        intro n hn
        simpa using hall n hn
  · constructor
    · intro h
      simp only [ksMatch, List.any_eq_true] at h
      obtain ⟨h0, hq, k, hkg, hm⟩ := h
      have hk : k ∈ S := (List.mem_filter.mp hkg).1
      refine ⟨k, hk, ?_⟩
      simp only [Idx.matchB, hU k hk, if_true] at hm
      simpa using hm
    · rintro ⟨k, hk, hhead⟩
      simp only [ksMatch, List.any_eq_true]
      refine ⟨k.head, hhead, k, List.mem_filter.mpr ⟨hk, by simp⟩, ?_⟩
      simp only [Idx.matchB, hU k hk, if_true]
      simpa using hhead

/-- C1 (amended): over a schema all of whose declared indexes are unique
`Key`s (the auto-added identifier key included), `KeySet.match(query,
unique=true)` succeeds iff the query's top-level field names are a superset
of the field-name set of some key in the set, and `KeySet.match(query,
unique=false)` succeeds iff some top-level field name is the head field of
some key in the set; in every other case it raises `KeyMatchError`
(`= false` here).  The non-emptiness hypothesis restates the constructor
assert `len(args) > 0` of `Index.__init__`; the all-unique hypothesis is the
amendment: a declared non-unique `Index` matches under `unique=true` as soon
as its head field is in the query (see the counterexample). -/
theorem C1_keyset_match_characterization (declared : List Idx) (q : List String)
    (hU : ∀ k ∈ declared, k.uniq = true)
    (hNE : ∀ k ∈ declared, k.index ≠ []) :
    (ksMatch (mkKeySet declared) q true = true ↔
      ∃ k ∈ mkKeySet declared, ∀ n ∈ k.names, n ∈ q)
    ∧ (ksMatch (mkKeySet declared) q false = true ↔
      ∃ k ∈ mkKeySet declared, k.head ∈ q) := by
  have hU2 : ∀ k ∈ mkKeySet declared, k.uniq = true := by
    intro k hk
    rcases mem_mkKeySet hk with h | rfl
    · exact hU k h
    · rfl
  have hNE2 : ∀ k ∈ mkKeySet declared, k.index ≠ [] := by
    intro k hk
    rcases mem_mkKeySet hk with h | rfl
    · exact hNE k h
    · simp [idKey]
  exact ksMatch_all_unique_iff (mkKeySet declared) q hU2 hNE2

/-- C1 witness: the schema declaring the unique key on `(a, b)`; the query
`{b, a}` covers it, so `match(query, unique=true)` succeeds. -/
theorem C1_keyset_match_witness :
    ksMatch (mkKeySet [⟨[("a", 1), ("b", 1)], true⟩]) ["b", "a"] true = true :=
  (C1_keyset_match_characterization [⟨[("a", 1), ("b", 1)], true⟩] ["b", "a"]
    (by decide) (by decide)).1.mpr (by decide)

/-- C1 counterexample: with a declared non-unique two-field `Index('x','y')`,
the query `{x}` passes `match(unique=true)` (since `Index.match` never
enforces coverage) although `{x}` is not a superset of the field set of any
declared key — refuting the claim as stated. -/
theorem C1_counterexample :
    ksMatch (mkKeySet [⟨[("x", 1), ("y", 1)], false⟩]) ["x"] true = true
    ∧ ¬ ∃ k ∈ mkKeySet [⟨[("x", 1), ("y", 1)], false⟩],
        ∀ n ∈ k.names, n ∈ ["x"] := by
  constructor
  · decide
  · decide

theorem ksAdd_pairwise {S : List Idx}
    (h : S.Pairwise fun a b => a.index ≠ b.index) (k : Idx) :
    (ksAdd S k).Pairwise fun a b => a.index ≠ b.index := by
  unfold ksAdd
  split
  · exact h
  · rename_i hany
    refine List.pairwise_append.mpr ⟨h, by simp, ?_⟩
    intro a ha b hb
    have hb2 : b = k := List.mem_singleton.mp hb
    subst hb2
    intro hc
    exact hany (List.any_eq_true.mpr ⟨a, ha, by simp [hc]⟩)

theorem ksUpdate_pairwise {S : List Idx}
    (h : S.Pairwise fun a b => a.index ≠ b.index) (ns : List Idx) :
    (ksUpdate S ns).Pairwise fun a b => a.index ≠ b.index := by
  induction ns generalizing S with
  | nil => exact h
  | cons n rest ih => exact ih (ksAdd_pairwise h n)

theorem ksAdd_dup {S : List Idx} {k2 : Idx} (h : ∃ k ∈ S, k.index = k2.index) :
    ksAdd S k2 = S := by
  obtain ⟨k, hk, he⟩ := h
  unfold ksAdd
  rw [if_pos]
  exact List.any_eq_true.mpr ⟨k, hk, by simp [he]⟩

theorem idIndex_mem_mkKeySet (d : List Idx) :
    ∃ k ∈ mkKeySet d, k.index = [("id", 1)] := by
  unfold mkKeySet ksAdd
  split
  · rename_i hany
    obtain ⟨k2, hk2, he⟩ := List.any_eq_true.mp hany
    exact ⟨k2, hk2, by simpa [idKey] using he⟩
  · exact ⟨idKey, List.mem_append_right _ (by simp), rfl⟩

/-- C9 (amended): after construction and any further sequence of add/update
operations, a key set contains an entry whose (field, direction) list is
exactly `[('id', ascending)]`, and never two structurally-equal entries
(equal ordered (field, direction) lists); adding a structurally-equal
duplicate leaves the set unchanged.  The amendment: the `id` entry is the
auto-added unique `Key('id')` only when no structurally-equal entry was
declared first — `_KeySet.add` deduplicates via `Index.__eq__`, which
ignores the uniqueness flag, so a declared non-unique `Index('id')`
pre-empts it (see the counterexample). -/
theorem C9_keyset_invariants (declared more : List Idx) :
    (∃ k ∈ ksUpdate (mkKeySet declared) more, k.index = [("id", 1)])
    ∧ (ksUpdate (mkKeySet declared) more).Pairwise
        (fun a b => a.index ≠ b.index)
    ∧ (∀ k2, (∃ k ∈ ksUpdate (mkKeySet declared) more, k.index = k2.index) →
        ksAdd (ksUpdate (mkKeySet declared) more) k2
          = ksUpdate (mkKeySet declared) more) := by
  refine ⟨?_, ?_, ?_⟩
  · obtain ⟨k, hk, he⟩ := idIndex_mem_mkKeySet declared
    exact ⟨k, ksUpdate_subset _ more hk, he⟩
  · exact ksUpdate_pairwise (ksAdd_pairwise (ksUpdate_pairwise List.Pairwise.nil declared) idKey) more
  · intro k2 h
    exact ksAdd_dup h

/-- C9 witness: the empty declaration; re-adding the identifier key is a
no-op. -/
theorem C9_keyset_invariants_witness :
    ksAdd (ksUpdate (mkKeySet []) []) idKey = ksUpdate (mkKeySet []) [] :=
  (C9_keyset_invariants [] []).2.2 idKey (by decide)

/-- C9 counterexample: declaring the non-unique `Index('id')` pre-empts the
automatically added `Key('id')` (deduplication compares only the (field,
direction) pairs), so the constructed set contains no unique key on `id` —
refuting "the set contains the unique identifier key" as stated. -/
theorem C9_counterexample :
    mkKeySet [⟨[("id", 1)], false⟩] = [⟨[("id", 1)], false⟩]
    ∧ ¬ ∃ k ∈ mkKeySet [⟨[("id", 1)], false⟩],
        k.index = [("id", 1)] ∧ k.uniq = true := by
  constructor
  · decide
  · decide

/-- C2 (amended): inserting a document that, for some declared unique key
whose head field is not the identifier field, lacks one of that key's field
names, fails before any store operation — the store contents are returned
unchanged — with an `AssertionError` (the failing `Key.match` assert; this
path never converts it to `KeyMatchError`).  The amendment: keys whose head
IS `id` are skipped by the `key.head != 'id'` guard even when they carry
further fields, and the error class is `AssertionError` rather than
`KeyMatchError` (see the counterexample). -/
theorem C2_insert_missing_key_field (S : List Idx) (a : Attrs)
    (store : List (List (String × Value))) (doc : List (String × Value))
    (newOid : String) (k : Idx) (hk : k ∈ S) (hu : k.uniq = true)
    (hh : ¬ k.head = "id") (n : String) (hn : n ∈ k.names)
    (hmiss : n ∉ queryKeys doc) :
    insertOp S a store doc newOid = (.error .assertionError, store) := by
  have hchk : insertChecks S (queryKeys doc) = .error .assertionError := by
    unfold insertChecks
    rw [if_neg]
    intro hall
    have h2 := List.all_eq_true.mp hall k hk
    simp only [Bool.or_eq_true, beq_iff_eq] at h2
    rcases h2 with h2 | h2
    · exact hh h2
    · simp only [Idx.matchB, hu, if_true, List.all_eq_true] at h2
      exact hmiss (by simpa using h2 n hn)
  unfold insertOp
  rw [hchk]

/-- C2 witness: the compound unique key `(kind, region)` with head `kind`,
and a document providing only `kind`. -/
theorem C2_insert_missing_key_field_witness :
    insertOp (mkKeySet [⟨[("kind", 1), ("region", 1)], true⟩]) (attrsInit [])
      [] [("kind", .int 1)] "z" = (.error .assertionError, []) :=
  C2_insert_missing_key_field _ _ _ _ _ ⟨[("kind", 1), ("region", 1)], true⟩
    (by decide) rfl (by decide) "region" (by decide) (by decide)

/-- C2 counterexample: the declared compound unique key `('id', 'x')` is not
the identifier key, and the document `{id: …}` misses its field `x`; yet
insert succeeds and reaches the store (the `key.head != 'id'` guard skips
the check), refuting "raises KeyMatchError before any store operation". -/
theorem C2_counterexample :
    (∃ k ∈ mkKeySet [⟨[("id", 1), ("x", 1)], true⟩],
        k.uniq = true ∧ k.index ≠ [("id", 1)]
        ∧ ∃ n ∈ k.names, n ∉ queryKeys [("id", Value.oid "0123456789ab0123456789ab")])
    ∧ insertOp (mkKeySet [⟨[("id", 1), ("x", 1)], true⟩]) (attrsInit []) []
        [("id", .oid "0123456789ab0123456789ab")] "z"
      = (.ok "z", [[("_id", .oid "0123456789ab0123456789ab")]]) := by
  constructor
  · decide
  · decide

theorem intCoerce_ne_nie (v : Value) :
    intCoerce v ≠ .error .notImplementedError := by
  cases v <;> simp [intCoerce] <;> (try split <;> simp)

theorem floatCoerce_ne_nie (v : Value) :
    floatCoerce v ≠ .error .notImplementedError := by
  cases v <;> simp [floatCoerce] <;> (try split <;> simp)

/-- C6 (amended): `IntField.from_mongo` returns the field's default exactly
when the integer coercion fails with `TypeError` (e.g. `None`, lists); when
the coercion fails for any other reason (a malformed string raises
`ValueError`) the error escapes `do_from_mongo`'s narrow `except TypeError`
and is swallowed by `from_mongo`, which returns null, not the default. -/
theorem C6_int_inbound (d v : Value) :
    fromMongo (.int d) v =
      match intCoerce v with
      | .ok n => .ok (.int n)
      | .error .typeError => .ok d
      | .error _ => .ok .null := by
  have h0 : fromMongo (.int d) v = fmCatch (match intCoerce v with
      | .ok n => .ok (.int n)
      | .error .typeError => .ok d
      | .error e => .error e) := rfl
  rw [h0]
  cases h : intCoerce v with
  | ok n => rfl
  | error e =>
    cases e <;> first | rfl | exact absurd h (intCoerce_ne_nie v)

/-- C6 counterexample: `IntField(default=0)` on the stored value `"abc"`:
the coercion fails (with `ValueError`), yet `from_mongo` returns null rather
than the default `0` — refuting "on failure, for any reason, returns the
field's default". -/
theorem C6_counterexample :
    intCoerce (.str "abc") = .error .valueError
    ∧ fromMongo (.int (.int 0)) (.str "abc") = .ok .null
    ∧ Value.null ≠ Value.int 0 := by
  refine ⟨rfl, rfl, by decide⟩

theorem fmCatch_ok {r : Except PyErr Value}
    (h : r ≠ .error .notImplementedError) : ∃ w, fmCatch r = .ok w := by
  cases r with
  | ok v => exact ⟨v, rfl⟩
  | error e => cases e <;> first | exact ⟨.null, rfl⟩ | exact absurd rfl h

theorem doFromMongoF_no_nie :
    ∀ fuel : Nat,
      (∀ f v, 2 * wsize f ≤ fuel →
        doFromMongoF fuel f v ≠ .error .notImplementedError)
      ∧ (∀ sub v, 2 * wsize sub + 1 ≤ fuel →
        listFieldFromF fuel sub v ≠ .error .notImplementedError) := by
  intro fuel
  induction fuel with
  | zero =>
    constructor
    · intro f v hf; have := wsize_pos f; omega
    · intro sub v hf; have := wsize_pos sub; omega
  | succ fuel ih =>
    constructor
    · intro f v hf
      cases f with
      | identity => simp [doFromMongoF]
      | tuple subs =>
        have hb : 2 * wsizeL subs + 1 ≤ fuel + 1 := by
          simp only [wsize_tuple] at hf; omega
        simp only [doFromMongoF]
        cases v <;> try simp
        all_goals {
          cases hi : iterate _ with
          | none => simp
          | some items =>
            simp only []
            split
            · obtain ⟨ys, hys⟩ := exMapM_ok_of
                (fun p => fmCatch (doFromMongoF fuel p.1 p.2)) (subs.zip items)
                (by
                  intro p hp
                  have hmem := (List.of_mem_zip hp).1
                  have hw := wsize_le_wsizeL p.1 subs hmem
                  exact fmCatch_ok (ih.1 p.1 p.2 (by omega)))
              simp [hys, Except.map]
            · simp }
      | list sub =>
        have hb : 2 * wsize sub + 1 ≤ fuel := by
          simp only [wsize_list] at hf; omega
        simp only [doFromMongoF]
        cases h : listFieldFromF fuel sub v with
        | ok l => simp [Except.map]
        | error e =>
          have h2 := ih.2 sub v hb
          rw [h] at h2
          simpa [Except.map] using h2
      | set sub =>
        have hb : 2 * wsize sub + 1 ≤ fuel := by
          simp only [wsize_set] at hf; omega
        simp only [doFromMongoF]
        cases h : listFieldFromF fuel sub v with
        | ok l => simp [Except.map]
        | error e =>
          have h2 := ih.2 sub v hb
          rw [h] at h2
          simpa [Except.map] using h2
      | enumSet allowed =>
        have hb : 2 * wsize (FieldTy.enum allowed) + 1 ≤ fuel := by
          simp only [wsize_enumSet] at hf; simp only [wsize_enum]; omega
        simp only [doFromMongoF]
        cases h : listFieldFromF fuel (.enum allowed) v with
        | ok l => simp [Except.map]
        | error e =>
          have h2 := ih.2 (.enum allowed) v hb
          rw [h] at h2
          simpa [Except.map] using h2
      | objectId => cases v <;> simp [doFromMongoF]
      | str d => simp only [doFromMongoF]; split <;> simp
      | int d =>
        simp only [doFromMongoF]
        cases h : intCoerce v with
        | ok n => simp
        | error e =>
          have hne := intCoerce_ne_nie v
          rw [h] at hne
          cases e <;> simp_all
      | float d =>
        simp only [doFromMongoF]
        cases h : floatCoerce v with
        | ok n => simp
        | error e =>
          have hne := floatCoerce_ne_nie v
          rw [h] at hne
          cases e <;> simp_all
      | enum allowed => simp [doFromMongoF]
      | bool d => simp only [doFromMongoF]; split <;> simp
      | binary => cases v <;> simp [doFromMongoF]
      | obj subs =>
        have hb : 2 * wsizeP subs + 1 ≤ fuel + 1 := by
          simp only [wsize_obj] at hf; omega
        have hgen : ∀ entries : List (String × Value),
            ∃ ys, exMapM (fun p =>
                match fmCatch (doFromMongoF fuel p.2 (dictGet entries p.1)) with
                | .error err => .error err
                | .ok r => .ok (p.1, r)) subs = .ok ys := by
          intro entries
          refine exMapM_ok_of _ subs ?_
          intro p hp
          have hw := wsize_le_wsizeP p subs hp
          obtain ⟨w, hw2⟩ := fmCatch_ok (ih.1 p.2 (dictGet entries p.1) (by omega))
          exact ⟨(p.1, w), by simp [hw2]⟩
        simp only [doFromMongoF]
        obtain ⟨ys, hys⟩ := hgen (match v with | .dict es => es | _ => [])
        rw [hys]
        simp [Except.map]
      | date d => cases v <;> simp [doFromMongoF]
      | datetime => cases v <;> simp [doFromMongoF]
      | url => cases v <;> simp [doFromMongoF]
    · intro sub v hf
      simp only [listFieldFromF]
      cases hi : iterate v with
      | none => simp
      | some items =>
        obtain ⟨ys, hys⟩ := exMapM_ok_of
          (fun i => fmCatch (doFromMongoF fuel sub i)) items
          (fun i _ => fmCatch_ok (ih.1 sub i (by omega)))
        simp [hys, Except.map]

/-- C5: for every concrete field codec and every raw stored value, the
inbound transform `from_mongo` terminates normally with a value and never
raises: every internal failure of `do_from_mongo` other than
`NotImplementedError` (which no concrete codec produces) is swallowed and
replaced by null (or, inside `IntField`/`FloatField`/`DateField`, by the
field's default), so one malformed stored field can never prevent the rest
of a document from loading. -/
theorem C5_inbound_never_raises (f : FieldTy) (v : Value) :
    ∃ w, fromMongo f v = .ok w :=
  fmCatch_ok ((doFromMongoF_no_nie (2 * wsize f)).1 f v (le_refl _))

theorem truthy_list (l : List Value) : truthy (.list l) = !l.isEmpty := rfl

theorem toMongo_enumSet_list (E S : List Value) :
    toMongo (.enumSet E) (.list S) .auto =
      (setFieldToF 11 (.enum E) (.list S)).map fun l =>
        if l.length = E.length then Value.list [] else Value.list l := rfl

theorem setFieldToF_11_list (sub : FieldTy) (S : List Value) :
    setFieldToF 11 sub (.list S) =
      if truthy (.list S) = false then .ok []
      else listFieldToF 10 sub (.list (uniqueList S)) := rfl

theorem listFieldToF_10_list (sub : FieldTy) (U : List Value) :
    listFieldToF 10 sub (.list U) =
      if truthy (.list U) = false then .ok []
      else (exMapM (fun i => toMongoF 9 sub i .auto) U).map
          (List.filter fun x => x != .null) := rfl

theorem toMongoF_9_enum (E : List Value) (i : Value) :
    toMongoF 9 (.enum E) i .auto = .ok (if i ∈ E then i else .null) := rfl

theorem fromMongo_enumSet_list (E U : List Value) :
    fromMongo (.enumSet E) (.list U) =
      fmCatch ((listFieldFromF 7 (.enum E) (.list U)).map fun l =>
        Value.list (E.filter fun e =>
          (uniqueList l).isEmpty || decide (e ∈ uniqueList l))) := rfl

theorem listFieldFromF_7_list (E U : List Value) :
    listFieldFromF 7 (.enum E) (.list U) =
      (exMapM (fun i => fmCatch (doFromMongoF 6 (.enum E) i)) U).map
        (List.filter fun x => x != .null) := rfl

theorem doFromMongoF_6_enum (E : List Value) (i : Value) :
    doFromMongoF 6 (.enum E) i = .ok (if i ∈ E then i else .null) := rfl

theorem filter_ne_null_eq_self {l E : List Value} (hsub : ∀ x ∈ l, x ∈ E)
    (hnn : Value.null ∉ E) : l.filter (fun x => x != .null) = l := by
  refine List.filter_eq_self.mpr ?_
  intro a ha
  simp only [bne_iff_ne, ne_eq]
  intro hc
  exact hnn (hc ▸ hsub a ha)

theorem length_lt_of_proper_subset {U E : List Value} (hnd : U.Nodup)
    (hsub : ∀ x ∈ U, x ∈ E) (e : Value) (he : e ∈ E) (hne : e ∉ U) :
    U.length < E.length := by
  have hsp := List.subperm_of_subset hnd fun x hx => hsub x hx
  rcases Nat.lt_or_ge U.length E.length with h | h
  · exact h
  · exact absurd ((hsp.perm_of_length_le h).mem_iff.mpr he) hne

theorem setFieldToF_enum_eval (E S : List Value) (hS : S ≠ [])
    (hsub : ∀ x ∈ S, x ∈ E) (hnn : Value.null ∉ E) :
    setFieldToF 11 (.enum E) (.list S) = .ok (uniqueList S) := by
  rw [setFieldToF_11_list]
  have hT : truthy (Value.list S) = true := by
    rw [truthy_list]
    simp [List.isEmpty_iff, hS]
  rw [hT, if_neg (by simp)]
  rw [listFieldToF_10_list]
  have hU : uniqueList S ≠ [] := uniqueList_ne_nil hS
  have hT2 : truthy (Value.list (uniqueList S)) = true := by
    rw [truthy_list]
    simp [List.isEmpty_iff, hU]
  rw [hT2, if_neg (by simp)]
  have hsub2 : ∀ x ∈ uniqueList S, x ∈ E :=
    fun x hx => hsub x ((mem_uniqueList S x).mp hx)
  have hmap : exMapM (fun i => toMongoF 9 (.enum E) i .auto) (uniqueList S)
      = .ok (uniqueList S) := by
    refine exMapM_id_of _ (uniqueList S) ?_
    intro x hx
    rw [toMongoF_9_enum]
    simp [hsub2 x hx]
  rw [hmap]
  simp [Except.map, filter_ne_null_eq_self hsub2 hnn]

theorem fromMongo_enumSet_eval (E U : List Value) (hsub : ∀ x ∈ U, x ∈ E)
    (hnn : Value.null ∉ E) :
    fromMongo (.enumSet E) (.list U) =
      .ok (.list (E.filter fun e =>
        (uniqueList U).isEmpty || decide (e ∈ uniqueList U))) := by
  rw [fromMongo_enumSet_list, listFieldFromF_7_list]
  have hmap : exMapM (fun i => fmCatch (doFromMongoF 6 (.enum E) i)) U
      = .ok U := by
    refine exMapM_id_of _ U ?_
    intro x hx
    rw [doFromMongoF_6_enum]
    simp [hsub x hx, fmCatch]
  rw [hmap]
  simp [Except.map, filter_ne_null_eq_self hsub hnn, fmCatch]

/-- C3 (amended): for `EnumSetField` over an allowed set `E` (no duplicates,
null not a member): outbound of the full set `E` yields the empty-list
sentinel; inbound of the empty list yields all of `E` in canonical order;
and for every NON-EMPTY proper subset `S` of `E`, outbound yields `S` with
duplicates collapsed (first occurrences, in `S`'s order) and inbound of that
stored value returns exactly the elements of `S`, ordered by `E`'s canonical
order, duplicates collapsed.  The non-emptiness requirement is the
amendment: the empty set round-trips to the FULL set, because the empty
list is the sentinel for "everything" (see the counterexample). -/
theorem C3_enumset_roundtrip (E : List Value) (hnd : E.Nodup)
    (hnn : Value.null ∉ E) :
    toMongo (.enumSet E) (.list E) .auto = .ok (.list [])
    ∧ fromMongo (.enumSet E) (.list []) = .ok (.list E)
    ∧ (∀ S : List Value, S ≠ [] → (∀ x ∈ S, x ∈ E) → (∃ e ∈ E, e ∉ S) →
        toMongo (.enumSet E) (.list S) .auto = .ok (.list (uniqueList S))
        ∧ fromMongo (.enumSet E) (.list (uniqueList S)) =
            .ok (.list (E.filter fun e => decide (e ∈ S)))) := by
  refine ⟨?_, ?_, ?_⟩
  · cases hE : E with
    | nil => rfl
    | cons e0 rest =>
      rw [← hE, toMongo_enumSet_list,
        setFieldToF_enum_eval E E (by simp [hE]) (fun x hx => hx) hnn,
        uniqueList_eq_self hnd]
      simp [Except.map]
  · have h := fromMongo_enumSet_eval E [] (by simp) hnn
    rw [h]
    simp [uniqueList, uniqueListAux]
  · intro S hS hsub hproper
    have hUsub : ∀ x ∈ uniqueList S, x ∈ E :=
      fun x hx => hsub x ((mem_uniqueList S x).mp hx)
    constructor
    · rw [toMongo_enumSet_list, setFieldToF_enum_eval E S hS hsub hnn]
      obtain ⟨e, he, hne⟩ := hproper
      have hlt : (uniqueList S).length < E.length :=
        length_lt_of_proper_subset (nodup_uniqueList S) hUsub e he
          (fun hc => hne ((mem_uniqueList S e).mp hc))
      simp [Except.map, Nat.ne_of_lt hlt]
    · rw [fromMongo_enumSet_eval E (uniqueList S) hUsub hnn,
        uniqueList_idem]
      have hne : (uniqueList S).isEmpty = false := by
        simp [List.isEmpty_iff, uniqueList_ne_nil hS]
      rw [hne]
      have hfc : ∀ e : Value,
          (false || decide (e ∈ uniqueList S)) = decide (e ∈ S) := by
        intro e
        simp [mem_uniqueList]
      rw [List.filter_congr fun e _ => hfc e]

/-- C3 witness: `E = {1, 2}`, `S = {2}` (given with a duplicate): outbound
stores `[2]`, inbound restores `[2]` in canonical order. -/
theorem C3_enumset_roundtrip_witness :
    toMongo (.enumSet [.int 1, .int 2]) (.list [.int 2, .int 2]) .auto
      = .ok (.list [.int 2])
    ∧ fromMongo (.enumSet [.int 1, .int 2]) (.list [.int 2])
      = .ok (.list [.int 2]) := by
  have h := (C3_enumset_roundtrip [.int 1, .int 2] (by decide) (by decide)).2.2
    [.int 2, .int 2] (by decide) (by decide) ⟨.int 1, by decide, by decide⟩
  exact ⟨h.1, h.2⟩

/-- C3 counterexample: the empty set is a proper subset of `E = {1}`, but its
encoding is the empty-list sentinel, which decodes back to the FULL set
`{1}` — the round trip does not reproduce `∅`, refuting the claim for that
proper subset. -/
theorem C3_counterexample :
    toMongo (.enumSet [.int 1]) (.list []) .auto = .ok (.list [])
    ∧ fromMongo (.enumSet [.int 1]) (.list []) = .ok (.list [.int 1])
    ∧ Value.list [.int 1] ≠ Value.list [] := by
  refine ⟨rfl, rfl, by decide⟩
